import Mathlib

/-!
Verification development for the kratgo forward-caching HTTP reverse proxy.

The proxy package (`internal/proxy/proxy.go`) and the admin endpoint
(`modules/admin/http.go`) are embedded directly.  Collaborating code that is
not part of the sources here (the cache entry codec, `config.ParseConfigKeys`,
`checkIfNoCache`, `invalidator.Add`) is modelled from the specification, and
each such definition is marked in its doc comment.  Machine bytes are `Nat`
values, byte strings are `List Nat`, and external capabilities (backend
clients, the expression library, JSON unmarshalling) are passed in as
function arguments or as already-computed results.
-/

namespace Kratgo

/-- A single byte of a byte string (Go `byte`). -/
abbrev Byte := Nat

/-- A Go `[]byte` value. -/
abbrev Bytes := List Nat

/-- Bytes of a string literal, used to transliterate Go string constants. -/
def strBytes (s : String) : Bytes := s.data.map Char.toNat

/-- One HTTP header pair, as kept by `fasthttp` header objects. -/
structure HttpHeader where
  key : Bytes
  value : Bytes
deriving DecidableEq

/-- `Header.Peek`: first value of the header with the given key, empty if absent. -/
def peekHeader : List HttpHeader → Bytes → Bytes
  | [], _ => []
  | h :: hs, k => if h.key = k then h.value else peekHeader hs k

/-- `Header.SetCanonical`: replace the header with the given key, or append it. -/
def setHeaderCanonical : List HttpHeader → Bytes → Bytes → List HttpHeader
  | [], k, v => [⟨k, v⟩]
  | h :: hs, k, v => if h.key = k then ⟨k, v⟩ :: hs else h :: setHeaderCanonical hs k v

/-- `Header.Del`: remove every header with the given key. -/
def delHeader (hs : List HttpHeader) (k : Bytes) : List HttpHeader :=
  hs.filter (fun h => h.key ≠ k)

/-- An incoming or backend-bound HTTP request (`fasthttp.Request`). -/
structure Request where
  method : Bytes
  host : Bytes
  path : Bytes
  headers : List HttpHeader
deriving DecidableEq

/-- An HTTP response (`fasthttp.Response`).  `fasthttp` reports status 200
for a response whose status was never set, so the default carries 200. -/
structure HttpResponse where
  statusCode : Nat
  body : Bytes
  headers : List HttpHeader
deriving DecidableEq

/-- A fresh `fasthttp.RequestCtx` response: unset status reads as 200. -/
def defaultResponse : HttpResponse := ⟨200, [], []⟩

/-- One cached response inside a host entry (`cache.Response`): only path,
body and headers are stored — there is no status-code field. -/
structure CacheResponse where
  Path : Bytes
  Body : Bytes
  Headers : List HttpHeader
deriving DecidableEq

/-- A host cache entry (`cache.Entry`): the ordered list of cached responses. -/
abbrev Entry := List CacheResponse

/-- Modelled from the spec: `Entry.GetResponse` returns the response whose
`Path` byte-equals the given path, if any. -/
def GetResponse : Entry → Bytes → Option CacheResponse
  | [], _ => none
  | r :: rs, p => if r.Path = p then some r else GetResponse rs p

/-- Modelled from the spec: `Entry.SetResponse` replaces the existing response
with the same `Path`, or appends the new response. -/
def SetResponse : Entry → CacheResponse → Entry
  | [], r => [r]
  | x :: xs, r => if x.Path = r.Path then r :: xs else x :: SetResponse xs r

/-! ### Cache entry codec

Modelled from the spec (§6, "Cache blob format"): a schema version byte at
offset 0, then length-prefixed fields in order
`Path | Body | HeaderCount | (HeaderKey | HeaderValue)*`, preceded by a
response count.  Lengths are 8-byte big-endian integers. -/

/-- Big-endian fixed-width encoding of a natural number. -/
def natToBytesBE : Nat → Nat → List Nat
  | 0, _ => []
  | w + 1, n => natToBytesBE w (n / 256) ++ [n % 256]

/-- Big-endian decoding of a byte list into a natural number. -/
def bytesToNatBE (bs : List Nat) : Nat := bs.foldl (fun a b => a * 256 + b) 0

/-- The codec's length prefix: 8 bytes, big-endian. -/
def encLen (n : Nat) : List Nat := natToBytesBE 8 n

/-- Encode a length-prefixed byte field. -/
def encBytes (b : Bytes) : List Nat := encLen b.length ++ b

/-- Encode one header as two length-prefixed fields. -/
def encHeader (h : HttpHeader) : List Nat := encBytes h.key ++ encBytes h.value

/-- Encode one cached response. -/
def encResponse (r : CacheResponse) : List Nat :=
  encBytes r.Path ++ encBytes r.Body ++ encLen r.Headers.length
    ++ (r.Headers.map encHeader).flatten

/-- The schema version byte of the blob format. -/
def codecVersion : Nat := 1

/-- Modelled from the spec: encode a host entry into a self-delimited blob. -/
def encode (e : Entry) : Bytes :=
  codecVersion :: encLen e.length ++ (e.map encResponse).flatten

/-- Read the 8-byte length prefix from the front of a blob. -/
def readLenPrefix (bs : List Nat) : Option (Nat × List Nat) :=
  if 8 ≤ bs.length then some (bytesToNatBE (bs.take 8), bs.drop 8) else none

/-- Read a field of exactly `n` bytes from the front of a blob. -/
def readBytes (n : Nat) (bs : List Nat) : Option (List Nat × List Nat) :=
  if n ≤ bs.length then some (bs.take n, bs.drop n) else none

/-- Decode one header from the front of a blob. -/
def decodeHeader (bs : List Nat) : Option (HttpHeader × List Nat) :=
  match readLenPrefix bs with
  | none => none
  | some (kl, bs) =>
    match readBytes kl bs with
    | none => none
    | some (k, bs) =>
      match readLenPrefix bs with
      | none => none
      | some (vl, bs) =>
        match readBytes vl bs with
        | none => none
        | some (v, bs) => some (⟨k, v⟩, bs)

/-- Decode a counted sequence of headers. -/
def decodeHeaders : Nat → List Nat → Option (List HttpHeader × List Nat)
  | 0, bs => some ([], bs)
  | k + 1, bs =>
    match decodeHeader bs with
    | none => none
    | some (h, bs) =>
      match decodeHeaders k bs with
      | none => none
      | some (hs, bs) => some (h :: hs, bs)

/-- Decode one cached response from the front of a blob. -/
def decodeResponse (bs : List Nat) : Option (CacheResponse × List Nat) :=
  match readLenPrefix bs with
  | none => none
  | some (pl, bs) =>
    match readBytes pl bs with
    | none => none
    | some (p, bs) =>
      match readLenPrefix bs with
      | none => none
      | some (bl, bs) =>
        match readBytes bl bs with
        | none => none
        | some (b, bs) =>
          match readLenPrefix bs with
          | none => none
          | some (hc, bs) =>
            match decodeHeaders hc bs with
            | none => none
            | some (hs, bs) => some (⟨p, b, hs⟩, bs)

/-- Decode a counted sequence of cached responses. -/
def decodeResponses : Nat → List Nat → Option (Entry × List Nat)
  | 0, bs => some ([], bs)
  | k + 1, bs =>
    match decodeResponse bs with
    | none => none
    | some (r, bs) =>
      match decodeResponses k bs with
      | none => none
      | some (rs, bs) => some (r :: rs, bs)

/-- Modelled from the spec: decode a blob back into an entry, rejecting an
unknown version byte and trailing garbage. -/
def decode (bs : Bytes) : Option Entry :=
  match bs with
  | [] => none
  | v :: rest =>
    if v = codecVersion then
      match readLenPrefix rest with
      | none => none
      | some (c, bs) =>
        match decodeResponses c bs with
        | none => none
        | some (rs, bs) => if bs.isEmpty then some rs else none
    else none

/-! ### Cache store (host key to encoded blob) -/

/-- The sharded byte-map, flattened to an association list from host to blob. -/
abbrev Cache := List (Bytes × Bytes)

/-- `Cache.Set`: upsert the blob stored under a host key. -/
def cacheSet : Cache → Bytes → Bytes → Cache
  | [], k, v => [(k, v)]
  | (k0, v0) :: rest, k, v =>
    if k0 = k then (k, v) :: rest else (k0, v0) :: cacheSet rest k v

/-- `Cache.Get`: the blob stored under a host key, if present. -/
def cacheGet : Cache → Bytes → Option Bytes
  | [], _ => none
  | (k0, v0) :: rest, k => if k0 = k then some v0 else cacheGet rest k

/-- Modelled from the spec: `Cache.SetBytes` encodes the entry and upserts it. -/
def SetBytes (c : Cache) (k : Bytes) (e : Entry) : Cache :=
  cacheSet c k (encode e)

/-- Modelled from the spec: `Cache.GetBytes` decodes the stored blob into the
caller's entry; a missing key yields an empty entry without error, and a
blob that fails to decode is a cache read error. -/
def GetBytes (c : Cache) (k : Bytes) : Except String Entry :=
  match cacheGet c k with
  | none => .ok []
  | some blob =>
    match decode blob with
    | some e => .ok e
    | none => .error "could not decode cache entry"

/-! ### Rules and their evaluation -/

/-- The values a rule evaluation can see: the current request and the current
response object (the fresh default response when no backend reply exists yet). -/
structure EvalCtx where
  req : Request
  resp : HttpResponse

/-- A compiled no-cache rule.  The compiled govaluate expression together with
its bound parameters is embedded as the evaluation function it denotes; an
`Except.error` result is a rule evaluation error (missing identifier in the
binding set, type mismatch). -/
structure NocacheRule where
  eval : EvalCtx → Except String Bool

/-- Modelled from the spec: `checkIfNoCache` evaluates the no-cache rules in
order against the request and response; the first error aborts, the first
rule that fires yields `true`, otherwise the result is `false`. -/
def checkIfNoCache (req : Request) (resp : HttpResponse) :
    List NocacheRule → Except String Bool
  | [] => .ok false
  | r :: rs =>
    match r.eval ⟨req, resp⟩ with
    | .error e => .error e
    | .ok true => .ok true
    | .ok false => checkIfNoCache req resp rs

/-- A header rule's action (`setHeaderAction` / `unsetHeaderAction`). -/
inductive HeaderAction
  | set
  | unset
deriving DecidableEq

/-- A parsed response-header mutation rule.  If `isRef` holds, the `set` value
is a `$(req.header::SUBKEY)` reference read from the request at apply time;
otherwise the literal `value` is used. -/
structure HeaderRule where
  action : HeaderAction
  name : Bytes
  expr : Option (EvalCtx → Except String Bool)
  isRef : Bool
  refSubKey : Bytes
  value : Bytes

/-- Apply one header rule to the backend response (spec §4.7). -/
def applyHeaderRule (req : Request) (resp : HttpResponse) (r : HeaderRule) :
    HttpResponse :=
  match r.action with
  | .set =>
    let v := if r.isRef then peekHeader req.headers r.refSubKey else r.value
    { resp with headers := setHeaderCanonical resp.headers r.name v }
  | .unset => { resp with headers := delHeader resp.headers r.name }

/-- Modelled from the spec: apply the header rules in configured order to the
backend response, skipping rules whose condition is false and aborting on a
rule evaluation error. -/
def processHeaderRules (rules : List HeaderRule) (req : Request)
    (resp : HttpResponse) : Except String HttpResponse :=
  match rules with
  | [] => .ok resp
  | r :: rs =>
    match r.expr with
    | none => processHeaderRules rs req (applyHeaderRule req resp r)
    | some ev =>
      match ev ⟨req, resp⟩ with
      | .error e => .error e
      | .ok true => processHeaderRules rs req (applyHeaderRule req resp r)
      | .ok false => processHeaderRules rs req resp

/-! ### The proxy -/

/-- An opaque backend client capability (`fetcher` / `Backend.Do`). -/
abbrev Fetcher := Request → Except String HttpResponse

/-- The proxy state used by the request pipeline (`Proxy`): backend list,
round-robin cursor and the compiled rules. -/
structure Proxy where
  backends : List Fetcher
  totalBackends : Nat
  currentBackend : Nat
  nocacheRules : List NocacheRule
  headersRules : List HeaderRule

/-- `Proxy.getBackend`: with a single backend return it directly; otherwise
advance the cursor, wrapping past the last index back to 0, and return the
backend at the new cursor.  The result is the new proxy state and the selected
index. -/
def getBackend (p : Proxy) : Proxy × Nat :=
  if p.totalBackends = 1 then (p, 0)
  else
    let cur := if p.totalBackends - 1 ≤ p.currentBackend then 0
               else p.currentBackend + 1
    ({ p with currentBackend := cur }, cur)

/-- The `Location` response header name checked for redirect passthrough. -/
def headerLocation : Bytes := strBytes "Location"

/-- The backend-bound request built by `fetchFromBackend`: the incoming
headers are cloned, the method kept and the request URI set to the path. -/
def mkBackendReq (req : Request) (path : Bytes) : Request :=
  { method := req.method, host := req.host, path := path, headers := req.headers }

/-- `Proxy.saveBackendResponse`: build a cache response from the outbound
response (path, body, and every visited header), merge it into the entry and
store the entry under the cache key. -/
def saveBackendResponse (cacheKey path : Bytes) (resp : HttpResponse)
    (entry : Entry) (cache : Cache) : Cache :=
  let r : CacheResponse :=
    { Path := path, Body := resp.body,
      Headers := resp.headers.foldl (fun hs h => setHeaderCanonical hs h.key h.value) [] }
  SetBytes cache cacheKey (SetResponse entry r)

/-- The observable outcome of `fetchFromBackend`: the outbound response so
far, the cache afterwards, whether the backend client was invoked, whether a
response was admitted to the cache, whether the no-cache rules were evaluated
against the backend response, and the returned error if any. -/
structure FetchResult where
  response : HttpResponse
  cache : Cache
  backendCalled : Bool
  saved : Bool
  evalOnResponse : Bool
  err : Option String

/-- `Proxy.fetchFromBackend`: forward the request to the next backend, apply
the header rules, copy the reply headers (and, as `fasthttp`'s header copy
does, the status code) outbound, pass redirects through, evaluate the
no-cache rules against the reply, set status and body, and admit the reply to
the cache only when no rule fired and the status is exactly 200. -/
def fetchFromBackend (p : Proxy) (cacheKey path : Bytes) (req : Request)
    (ctxResp : HttpResponse) (entry : Entry) (cache : Cache) : FetchResult :=
  let breq := mkBackendReq req path
  let sel := getBackend p
  match sel.1.backends[sel.2]? with
  | none =>
    { response := ctxResp, cache := cache, backendCalled := false,
      saved := false, evalOnResponse := false, err := some "no backend" }
  | some doFetch =>
    match doFetch breq with
    | .error e =>
      { response := ctxResp, cache := cache, backendCalled := true,
        saved := false, evalOnResponse := false,
        err := some ("Could not fetch response from backend: " ++ e) }
    | .ok resp =>
      match processHeaderRules p.headersRules breq resp with
      | .error e =>
        { response := ctxResp, cache := cache, backendCalled := true,
          saved := false, evalOnResponse := false,
          err := some ("Could not process headers rules: " ++ e) }
      | .ok resp2 =>
        let ctxResp1 := { ctxResp with
                          statusCode := resp2.statusCode,
                          headers := resp2.headers }
        if peekHeader resp2.headers headerLocation = [] then
          match checkIfNoCache breq resp2 p.nocacheRules with
          | .error e =>
            { response := ctxResp1, cache := cache, backendCalled := true,
              saved := false, evalOnResponse := true, err := some e }
          | .ok noCache =>
            let ctxResp2 := { ctxResp1 with
                              statusCode := resp2.statusCode,
                              body := resp2.body }
            if noCache = true ∨ ctxResp2.statusCode ≠ 200 then
              { response := ctxResp2, cache := cache, backendCalled := true,
                saved := false, evalOnResponse := true, err := none }
            else
              { response := ctxResp2,
                cache := saveBackendResponse cacheKey path ctxResp2 entry cache,
                backendCalled := true, saved := true, evalOnResponse := true,
                err := none }
        else
          { response := ctxResp1, cache := cache, backendCalled := true,
            saved := false, evalOnResponse := false, err := none }

/-- The observable outcome of the request handler. -/
structure HandlerResult where
  response : HttpResponse
  cache : Cache
  backendCalled : Bool
  servedFromCache : Bool

/-- `ctx.Error`: reset the response, set the status code and the message body. -/
def errorResponse (msg : String) : HttpResponse :=
  { statusCode := 500, body := strBytes msg, headers := [] }

/-- Finish the handler through the backend path, turning a `fetchFromBackend`
error into a 500 error response. -/
def respondFetch (fr : FetchResult) : HandlerResult :=
  match fr.err with
  | some e =>
    { response := errorResponse e, cache := fr.cache,
      backendCalled := fr.backendCalled, servedFromCache := false }
  | none =>
    { response := fr.response, cache := fr.cache,
      backendCalled := fr.backendCalled, servedFromCache := false }

/-- `Proxy.handler`: evaluate the no-cache rules against the request (the
response is still the fresh default); on error set a 500 error response — the
source has no early return here, so control still falls through to the
backend fetch.  Otherwise, unless a rule fired, look the host up in the cache
and serve the stored response for the exact original path if present;
otherwise fetch from a backend. -/
def handler (p : Proxy) (req : Request) (cache : Cache) : HandlerResult :=
  let path := req.path
  let cacheKey := req.host
  match checkIfNoCache req defaultResponse p.nocacheRules with
  | .error e =>
    respondFetch (fetchFromBackend p cacheKey path req (errorResponse e) [] cache)
  | .ok noCache =>
    if noCache = true then
      respondFetch (fetchFromBackend p cacheKey path req defaultResponse [] cache)
    else
      match GetBytes cache cacheKey with
      | .error e =>
        respondFetch (fetchFromBackend p cacheKey path req (errorResponse e) [] cache)
      | .ok entry =>
        match GetResponse entry path with
        | some r =>
          { response :=
              { defaultResponse with
                body := r.Body,
                headers := r.Headers.foldl
                  (fun hs h => setHeaderCanonical hs h.key h.value)
                  defaultResponse.headers },
            cache := cache, backendCalled := false, servedFromCache := true }
        | none =>
          respondFetch (fetchFromBackend p cacheKey path req defaultResponse entry cache)

/-- The index sequence produced by consecutive `getBackend` calls. -/
def backendSeq : Proxy → Nat → List Nat
  | _, 0 => []
  | p, k + 1 =>
    let sel := getBackend p
    sel.2 :: backendSeq sel.1 k

/-! ### The rule expression compiler

`newEvaluableExpression` (`proxy.go`) scans the rule text for `$(…)` tokens;
for each remaining token it asks `config.ParseConfigKeys` for the token text,
the generated identifier and the sub key, replaces every occurrence of the
token text in the rule (`strings.Replace` with count `-1`) and records one
`ruleParam`.  `config.ParseConfigKeys` itself is not part of these sources
and is modelled from the spec. -/

/-- `ruleParam`: a generated identifier together with its sub key. -/
structure RuleParam where
  name : List Char
  subKey : List Char
deriving DecidableEq

/-- Split a token body at the first closing parenthesis, returning the body
and the remaining text. -/
def splitAtClose : List Char → Option (List Char × List Char)
  | [] => none
  | c :: cs =>
    if c = ')' then some ([], cs)
    else
      match splitAtClose cs with
      | none => none
      | some (a, b) => some (c :: a, b)

/-- Modelled from the spec: the first `$(…)` token of the rule text, as
matched by `config.ConfigVarRegex`. -/
def findFirstToken : List Char → Option (List Char)
  | [] => none
  | c :: cs =>
    if c = '$' then
      match cs with
      | [] => none
      | c2 :: cs2 =>
        if c2 = '(' then
          match splitAtClose cs2 with
          | none => none
          | some (inner, _) => some ('$' :: '(' :: (inner ++ [')']))
        else findFirstToken cs
    else findFirstToken cs

/-- Split a token body at the first `::`, giving the NAME and the SUBKEY. -/
def splitNameSub : List Char → List Char × List Char
  | [] => ([], [])
  | c :: cs =>
    match cs with
    | [] => ([c], [])
    | c2 :: cs2 =>
      if c = ':' ∧ c2 = ':' then ([], cs2)
      else
        let p := splitNameSub cs
        (c :: p.1, p.2)

/-- Modelled from the spec: the fixed evaluation variable of a scalar NAME
(`V_method`, `V_host`, …), or `[]` for any other NAME. -/
def scalarVar (name : List Char) : List Char :=
  if name = "method".toList then "V_method".toList
  else if name = "host".toList then "V_host".toList
  else if name = "path".toList then "V_path".toList
  else if name = "contentType".toList then "V_contentType".toList
  else if name = "statusCode".toList then "V_statusCode".toList
  else []

/-- Modelled from the spec: the identifier base of a keyed NAME
(`V_reqHeader`, `V_respHeader`, `V_cookie`), or `[]` for any other NAME. -/
def keyedBase (name : List Char) : List Char :=
  if name = "req.header".toList then "V_reqHeader".toList
  else if name = "resp.header".toList then "V_respHeader".toList
  else if name = "cookie".toList then "V_cookie".toList
  else []

/-- Modelled from the spec: `config.ParseConfigKeys` finds the first token of
the rule and returns its full text, the generated identifier and the sub key;
for keyed params the identifier carries an ascending integer, threaded here
as an explicit counter.  A scalar NAME with a SUBKEY, a keyed NAME without
one, or an unknown NAME yields three empty keys, which the caller reports as
an invalid condition. -/
def parseConfigKeys (s : List Char) (counter : Nat) :
    List Char × List Char × List Char × Nat :=
  match findFirstToken s with
  | none => ([], [], [], counter)
  | some tok =>
    let inner := (tok.drop 2).dropLast
    let p := splitNameSub inner
    if (scalarVar p.1).isEmpty = false then
      if p.2.isEmpty then (tok, scalarVar p.1, [], counter)
      else ([], [], [], counter)
    else if (keyedBase p.1).isEmpty = false then
      if p.2.isEmpty then ([], [], [], counter)
      else (tok, keyedBase p.1 ++ (toString counter).toList, p.2, counter + 1)
    else ([], [], [], counter)

/-- `strings.Replace` with count `-1` (fuelled by the remaining length):
replace every non-overlapping occurrence of `pat`, scanning left to right. -/
def replaceAllFuel : Nat → List Char → List Char → List Char → List Char
  | 0, s, _, _ => s
  | fuel + 1, s, pat, rep =>
    match s with
    | [] => []
    | c :: cs =>
      if pat ≠ [] ∧ pat.isPrefixOf (c :: cs) then
        rep ++ replaceAllFuel fuel ((c :: cs).drop pat.length) pat rep
      else c :: replaceAllFuel fuel cs pat rep

/-- `strings.Replace(s, pat, rep, -1)`. -/
def replaceAll (s pat rep : List Char) : List Char :=
  replaceAllFuel s.length s pat rep

/-- The substitution loop of `newEvaluableExpression`, fuelled by the length
of the rule text (the Go loop runs while the regex still matches; the fuel
returns the current state if ever exhausted). -/
def newEvalLoop : Nat → List Char → List RuleParam → Nat →
    Except String (List Char × List RuleParam)
  | 0, rule, params, _ => .ok (rule, params)
  | fuel + 1, rule, params, counter =>
    match findFirstToken rule with
    | none => .ok (rule, params)
    | some _ =>
      let q := parseConfigKeys rule counter
      if q.1.isEmpty ∧ q.2.1.isEmpty ∧ q.2.2.1.isEmpty then
        .error "Invalid condition"
      else
        newEvalLoop fuel (replaceAll rule q.1 q.2.1)
          (params ++ [⟨q.2.1, q.2.2.1⟩]) q.2.2.2

/-- `Proxy.newEvaluableExpression`: rewrite each `$(…)` token to its generated
identifier (every occurrence of the same token text at once) and collect one
`ruleParam` per substitution.  The final govaluate compilation of the
rewritten text is external and not modelled; the result is the rewritten rule
text and the parameter list. -/
def newEvaluableExpression (rule : List Char) :
    Except String (List Char × List RuleParam) :=
  newEvalLoop rule.length rule [] 0

/-! ### Proxy construction (`New`) at the configuration level -/

/-- A configured response-header mutation (`config.Header`). -/
structure ConfigHeader where
  name : List Char
  value : List Char
  whenCond : List Char
deriving DecidableEq

/-- The part of the configuration `New` validates. -/
structure ProxyConfig where
  backendsAddrs : List (List Char)
  nocache : List (List Char)
  headersSet : List ConfigHeader
  headersUnset : List ConfigHeader
  cacheCleanFrequency : Nat
deriving DecidableEq

/-- A compiled no-cache rule at the syntactic level. -/
structure SynRule where
  expr : List Char
  params : List RuleParam
deriving DecidableEq

/-- A compiled header rule at the syntactic level. -/
structure SynHeaderRule where
  action : HeaderAction
  name : List Char
  expr : Option SynRule
  value : List Char
  valueSubKey : List Char
deriving DecidableEq

/-- The proxy state produced by `New`, at the syntactic level. -/
structure SynProxy where
  backendsAddrs : List (List Char)
  totalBackends : Nat
  currentBackend : Nat
  nocacheRules : List SynRule
  headersRules : List SynHeaderRule
deriving DecidableEq

/-- `Proxy.parseNocacheRules`: compile each configured no-cache rule,
propagating a compilation error. -/
def parseNocacheRules : List (List Char) → Except String (List SynRule)
  | [] => .ok []
  | r :: rs =>
    match newEvaluableExpression r with
    | .error _ => .error "Could not get the evaluable expression for rule"
    | .ok c =>
      match parseNocacheRules rs with
      | .error e => .error e
      | .ok cs => .ok (⟨c.1, c.2⟩ :: cs)

/-- `Proxy.parseHeadersRules`: compile each configured header rule; a `When`
condition is compiled like a no-cache rule, and a `set` value that is a
`$(…)` reference keeps the generated identifier and sub key. -/
def parseHeadersRules (action : HeaderAction) :
    List ConfigHeader → Except String (List SynHeaderRule)
  | [] => .ok []
  | h :: hs =>
    let compiled : Except String (Option SynRule) :=
      if h.whenCond.isEmpty then .ok none
      else
        match newEvaluableExpression h.whenCond with
        | .error _ => .error "Could not get the evaluable expression for rule"
        | .ok c => .ok (some ⟨c.1, c.2⟩)
    match compiled with
    | .error e => .error e
    | .ok expr =>
      let q := parseConfigKeys h.value 0
      let r : SynHeaderRule :=
        if action = HeaderAction.set ∧ q.2.1.isEmpty = false then
          ⟨action, h.name, expr, q.2.1, q.2.2.1⟩
        else ⟨action, h.name, expr, h.value, []⟩
      match parseHeadersRules action hs with
      | .error e => .error e
      | .ok rs => .ok (r :: rs)

/-- `New` (`proxy.go`): validate `Cache.CleanFrequency`, build one backend
slot per configured address with the cursor at 0, and compile the no-cache
and header rules, failing on any compilation error.  The log output, cache
and invalidator constructions are external and modelled as succeeding.
Notably there is no check that the backend address list is non-empty. -/
def New (cfg : ProxyConfig) : Except String SynProxy :=
  if cfg.cacheCleanFrequency = 0 then
    .error "Cache.CleanFrequency configuration must be greater than 0"
  else
    match parseNocacheRules cfg.nocache with
    | .error e => .error e
    | .ok nc =>
      match parseHeadersRules HeaderAction.set cfg.headersSet with
      | .error e => .error e
      | .ok hs =>
        match parseHeadersRules HeaderAction.unset cfg.headersUnset with
        | .error e => .error e
        | .ok hu =>
          .ok { backendsAddrs := cfg.backendsAddrs,
                totalBackends := cfg.backendsAddrs.length,
                currentBackend := 0,
                nocacheRules := nc,
                headersRules := hs ++ hu }

/-! ### The admin invalidation endpoint -/

/-- The header selector of an invalidation entry (`invalidator.EntryHeader`). -/
structure InvEntryHeader where
  key : List Char
  value : List Char
deriving DecidableEq

/-- An invalidation entry (`invalidator.Entry`). -/
structure InvEntry where
  host : List Char
  path : List Char
  header : InvEntryHeader
deriving DecidableEq

/-- The invalidator's bounded FIFO queue of pending entries. -/
structure InvState where
  queue : List InvEntry
  maxQueue : Nat
deriving DecidableEq

/-- Modelled from the spec: `Invalidator.Add` rejects a malformed entry
(empty host) or a full queue, and otherwise enqueues the entry. -/
def invalidatorAdd (st : InvState) (e : InvEntry) : Except String InvState :=
  if e.host.isEmpty then .error "invalid entry: host is required"
  else if st.maxQueue ≤ st.queue.length then .error "invalidator queue is full"
  else .ok { st with queue := st.queue ++ [e] }

/-- What the admin endpoint hands back to the HTTP framework: either a text
response with a status code, or an error returned from the handler. -/
inductive AdminOutcome
  | response (status : Nat) (body : String)
  | handlerError (msg : String)
deriving DecidableEq

/-- `Admin.invalidateView` (`modules/admin/http.go`): the JSON unmarshalling
of the request body is external and passed in as its result.  A body that
fails to parse makes the handler return the error (not a 400 text response);
an entry the invalidator rejects yields `400` with the error message and no
state change; an accepted entry yields `200 OK` (the framework's default
status for a text response). -/
def invalidateView (unmarshal : Except String InvEntry) (st : InvState) :
    AdminOutcome × InvState :=
  match unmarshal with
  | .error e => (.handlerError e, st)
  | .ok entry =>
    match invalidatorAdd st entry with
    | .error msg => (.response 400 msg, st)
    | .ok st2 => (.response 200 "OK", st2)

/-! ## Helper lemmas shared across the claims -/

theorem respondFetch_cache (fr : FetchResult) : (respondFetch fr).cache = fr.cache := by
  cases h : fr.err <;> simp [respondFetch, h]

theorem respondFetch_backendCalled (fr : FetchResult) :
    (respondFetch fr).backendCalled = fr.backendCalled := by
  cases h : fr.err <;> simp [respondFetch, h]

theorem respondFetch_served (fr : FetchResult) :
    (respondFetch fr).servedFromCache = false := by
  cases h : fr.err <;> simp [respondFetch, h]

theorem respondFetch_status_of_err (fr : FetchResult) (e : String)
    (h : fr.err = some e) : (respondFetch fr).response.statusCode = 500 := by
  simp [respondFetch, h, errorResponse]

theorem respondFetch_response_of_ok (fr : FetchResult)
    (h : fr.err = none) : (respondFetch fr).response = fr.response := by
  simp [respondFetch, h]

theorem checkIfNoCache_cons_error (r : NocacheRule) (rs : List NocacheRule)
    (req : Request) (resp : HttpResponse) (m : String)
    (h : r.eval ⟨req, resp⟩ = .error m) :
    checkIfNoCache req resp (r :: rs) = .error m := by
  simp [checkIfNoCache, h]

/-! ## Claim C7 -/

/-- C7 (code_bug evaluation): with an empty backend address list and an
otherwise valid configuration, `New` does not fail — it returns a proxy with
zero backends.  The repository's own test (`TestProxy_New`, case
`ErrorNoBackendAddrs`) and the spec require a startup error here. -/
theorem new_acceptsEmptyBackends :
    New { backendsAddrs := [], nocache := [], headersSet := [],
          headersUnset := [], cacheCleanFrequency := 5 } =
      .ok { backendsAddrs := [], totalBackends := 0, currentBackend := 0,
            nocacheRules := [], headersRules := [] } := by
  rfl

/-! ## Claim C8 -/

/-- C8 counterexample: a body that fails JSON parsing is returned from the
handler as an error to the HTTP framework; the caller does not receive a
`400` text response as the claim states. -/
theorem invalidateView_parseError_counterexample :
    invalidateView (Except.error "unexpected end of JSON input") ⟨[], 4⟩ =
      (.handlerError "unexpected end of JSON input", ⟨[], 4⟩) ∧
    AdminOutcome.handlerError "unexpected end of JSON input" ≠
      AdminOutcome.response 400 "unexpected end of JSON input" := by
  exact ⟨rfl, fun h => AdminOutcome.noConfusion h⟩

/-- C8 (amended): the admin endpoint answers `200 OK` exactly when the
invalidator accepted and enqueued the entry; an entry the invalidator rejects
(malformed entry, full queue) yields `400` with the message and no state
change; a body that fails JSON parsing is returned as a handler error (not a
`400` text response), also with no state change. -/
theorem invalidateView_spec (st : InvState) (e : InvEntry) (st2 : InvState) :
    (invalidatorAdd st e = .ok st2 →
      invalidateView (.ok e) st = (.response 200 "OK", st2)) ∧
    (∀ msg, invalidatorAdd st e = .error msg →
      invalidateView (.ok e) st = (.response 400 msg, st)) ∧
    (∀ msg, invalidateView (.error msg) st = (.handlerError msg, st)) := by
  refine ⟨fun h => ?_, fun msg h => ?_, fun msg => rfl⟩ <;>
    simp [invalidateView, h]

/-- C8 witness: an acceptable entry on an empty queue is enqueued and
answered `200 OK`. -/
theorem invalidateView_spec_witness :
    invalidateView (.ok ⟨['h'], [], ⟨[], []⟩⟩) ⟨[], 4⟩ =
      (.response 200 "OK", ⟨[⟨['h'], [], ⟨[], []⟩⟩], 4⟩) :=
  (invalidateView_spec ⟨[], 4⟩ ⟨['h'], [], ⟨[], []⟩⟩
    ⟨[⟨['h'], [], ⟨[], []⟩⟩], 4⟩).1 rfl

/-! ## Claim C2 -/

/-- A backend used in the claim C2 counterexample. -/
def c2Backend : Fetcher := fun _ => .ok ⟨200, strBytes "hello", []⟩

/-- A no-cache rule whose evaluation always fails, as with a missing
identifier in the binding set. -/
def c2Rule : NocacheRule := ⟨fun _ => .error "eval error"⟩

/-- The proxy of the claim C2 counterexample. -/
def c2Proxy : Proxy := ⟨[c2Backend], 1, 0, [c2Rule], []⟩

/-- The request of the claim C2 counterexample. -/
def c2Req : Request := ⟨strBytes "GET", strBytes "h", strBytes "/p", []⟩

/-- C2 counterexample: when the no-cache evaluation against the request
errors, the handler sets the 500 error response but — the source has no early
return in this branch — still forwards the request to the backend. -/
theorem handler_evalError_counterexample :
    (handler c2Proxy c2Req []).backendCalled = true ∧
    (handler c2Proxy c2Req []).response.statusCode = 500 := by
  constructor <;> rfl

theorem fetch_ruleEvalError (p : Proxy) (cacheKey path : Bytes) (req : Request)
    (ctxResp : HttpResponse) (entry : Entry) (cache : Cache) (m : String)
    (hcnc : ∀ req0 resp0, checkIfNoCache req0 resp0 p.nocacheRules = .error m)
    (hsel : ∃ f, (getBackend p).1.backends[(getBackend p).2]? = some f) :
    (fetchFromBackend p cacheKey path req ctxResp entry cache).backendCalled = true ∧
    (fetchFromBackend p cacheKey path req ctxResp entry cache).cache = cache ∧
    (fetchFromBackend p cacheKey path req ctxResp entry cache).saved = false ∧
    ((fetchFromBackend p cacheKey path req ctxResp entry cache).err ≠ none ∨
      peekHeader (fetchFromBackend p cacheKey path req ctxResp entry cache).response.headers
        headerLocation ≠ []) := by
  obtain ⟨f, hf⟩ := hsel
  unfold fetchFromBackend
  simp only [hf]
  cases hdo : f (mkBackendReq req path) with
  | error e => simp [hdo]
  | ok resp =>
    cases hph : processHeaderRules p.headersRules (mkBackendReq req path) resp with
    | error e => simp [hdo, hph]
    | ok resp2 =>
      by_cases hloc : peekHeader resp2.headers headerLocation = []
      · simp [hdo, hph, hloc, hcnc]
      · simp [hdo, hph, hloc]

/-- C2 (amended): when the evaluation of the no-cache rules against the
request always errors (the first rule fails on every context), the handler
sets a 500 error response but still forwards the request to the backend; the
response is never served from the cache and nothing is written to the cache,
and the final status is 500 unless the backend reply carried a `Location`
header, in which case the redirect passthrough overwrites the error
response. -/
theorem handler_ruleEvalError (p : Proxy) (req : Request) (cache : Cache)
    (r : NocacheRule) (rs : List NocacheRule) (m : String)
    (hrules : p.nocacheRules = r :: rs)
    (hr : ∀ c, r.eval c = Except.error m)
    (hsel : ∃ f, (getBackend p).1.backends[(getBackend p).2]? = some f) :
    (handler p req cache).backendCalled = true ∧
    (handler p req cache).cache = cache ∧
    (handler p req cache).servedFromCache = false ∧
    ((handler p req cache).response.statusCode = 500 ∨
      peekHeader (handler p req cache).response.headers headerLocation ≠ []) := by
  have hcnc : ∀ req0 resp0, checkIfNoCache req0 resp0 p.nocacheRules = .error m := by
    intro req0 resp0
    rw [hrules]
    exact checkIfNoCache_cons_error r rs req0 resp0 m (hr ⟨req0, resp0⟩)
  have hfetch := fetch_ruleEvalError p req.host req.path req
    (errorResponse m) [] cache m hcnc hsel
  unfold handler
  rw [hcnc req defaultResponse]
  refine ⟨?_, ?_, respondFetch_served _, ?_⟩
  · rw [respondFetch_backendCalled]
    exact hfetch.1
  · rw [respondFetch_cache]
    exact hfetch.2.1
  · rcases hfetch.2.2.2 with herr | hloc
    · left
      cases he : (fetchFromBackend p req.host req.path req (errorResponse m) [] cache).err with
      | none => exact absurd he herr
      | some e => exact respondFetch_status_of_err _ e he
    · cases he : (fetchFromBackend p req.host req.path req (errorResponse m) [] cache).err with
      | none =>
        right
        rw [respondFetch_response_of_ok _ he]
        exact hloc
      | some e => exact Or.inl (respondFetch_status_of_err _ e he)

/-- C2 witness: a concrete proxy whose single rule always errors, with a
non-redirecting backend. -/
theorem handler_ruleEvalError_witness :
    (handler c2Proxy c2Req []).backendCalled = true ∧
    (handler c2Proxy c2Req []).cache = [] ∧
    (handler c2Proxy c2Req []).servedFromCache = false ∧
    ((handler c2Proxy c2Req []).response.statusCode = 500 ∨
      peekHeader (handler c2Proxy c2Req []).response.headers headerLocation ≠ []) :=
  handler_ruleEvalError c2Proxy c2Req [] c2Rule [] "eval error" rfl
    (fun _ => rfl) ⟨c2Backend, rfl⟩

/-! ## Claim C3 -/

/-- A backend answering 200 together with a Location header, for the claim
C3 counterexample. -/
def c3Backend : Fetcher :=
  fun _ => .ok ⟨200, strBytes "B", [⟨strBytes "Location", strBytes "http://x"⟩]⟩

/-- The proxy of the claim C3 counterexample: no no-cache rules at all. -/
def c3Proxy : Proxy := ⟨[c3Backend], 1, 0, [], []⟩

/-- The request of the claim C3 counterexample. -/
def c3Req : Request := ⟨strBytes "GET", strBytes "h", strBytes "/p", []⟩

/-- C3 counterexample: a backend reply with status exactly 200 and no
no-cache rule configured (so no rule evaluated to true) is still not written
to the cache, because it carries a `Location` header — the claimed
equivalence fails on this reply. -/
theorem fetch_admission_counterexample :
    c3Proxy.nocacheRules = [] ∧
    (fetchFromBackend c3Proxy (strBytes "h") (strBytes "/p") c3Req
      defaultResponse [] []).cache = [] ∧
    ¬ ((fetchFromBackend c3Proxy (strBytes "h") (strBytes "/p") c3Req
          defaultResponse [] []).saved = true ↔
        (fetchFromBackend c3Proxy (strBytes "h") (strBytes "/p") c3Req
          defaultResponse [] []).response.statusCode = 200) := by
  refine ⟨rfl, rfl, ?_⟩
  decide

/-- C3 (amended): for every backend reply that carries no `Location` header
(after header-rule mutation) and whose no-cache evaluation succeeds, the
reply is written into the cache under the request's host key if and only if
no no-cache rule evaluated to true and the status code is exactly 200;
otherwise the cache is left unchanged. -/
theorem fetch_admission (p : Proxy) (cacheKey path : Bytes) (req : Request)
    (ctxResp : HttpResponse) (entry : Entry) (cache : Cache)
    (f : Fetcher) (resp resp2 : HttpResponse) (nc : Bool)
    (hsel : (getBackend p).1.backends[(getBackend p).2]? = some f)
    (hdo : f (mkBackendReq req path) = .ok resp)
    (hph : processHeaderRules p.headersRules (mkBackendReq req path) resp = .ok resp2)
    (hloc : peekHeader resp2.headers headerLocation = [])
    (hnc : checkIfNoCache (mkBackendReq req path) resp2 p.nocacheRules = .ok nc) :
    ((fetchFromBackend p cacheKey path req ctxResp entry cache).saved = true ↔
      (nc = false ∧ resp2.statusCode = 200)) ∧
    ((fetchFromBackend p cacheKey path req ctxResp entry cache).saved = false →
      (fetchFromBackend p cacheKey path req ctxResp entry cache).cache = cache) ∧
    ((fetchFromBackend p cacheKey path req ctxResp entry cache).saved = true →
      (fetchFromBackend p cacheKey path req ctxResp entry cache).cache =
        saveBackendResponse cacheKey path resp2 entry cache) := by
  unfold fetchFromBackend
  simp only [hsel, hdo, hph, hloc, hnc]
  by_cases hcond : nc = true ∨ resp2.statusCode ≠ 200
  · rw [if_pos hcond]
    refine ⟨?_, fun _ => rfl, fun hx => Bool.noConfusion hx⟩
    constructor
    · intro hx
      exact absurd hx (by simp)
    · intro hx
      rcases hcond with hc | hc
      · rw [hx.1] at hc
        exact absurd hc (by simp)
      · exact absurd hx.2 hc
  · rw [if_neg hcond]
    push_neg at hcond
    refine ⟨⟨fun _ => ⟨?_, hcond.2⟩, fun _ => rfl⟩, fun hx => Bool.noConfusion hx, fun _ => rfl⟩
    revert hcond
    cases nc <;> simp

/-- A cacheable backend used by the claim C3 witness. -/
def c3wBackend : Fetcher :=
  fun _ => .ok ⟨200, strBytes "B", [⟨strBytes "X-A", strBytes "1"⟩]⟩

/-- The proxy of the claim C3 witness. -/
def c3wProxy : Proxy := ⟨[c3wBackend], 1, 0, [], []⟩

/-- The mutated backend reply of the claim C3 witness. -/
def c3wResp : HttpResponse := ⟨200, strBytes "B", [⟨strBytes "X-A", strBytes "1"⟩]⟩

/-- C3 witness: a 200 reply without a Location header and with no rule fired
is admitted, and the cache afterwards is exactly the stored entry. -/
theorem fetch_admission_witness :
    ((fetchFromBackend c3wProxy (strBytes "h") (strBytes "/p") c3Req
        defaultResponse [] []).saved = true ↔
      (false = false ∧ c3wResp.statusCode = 200)) ∧
    ((fetchFromBackend c3wProxy (strBytes "h") (strBytes "/p") c3Req
        defaultResponse [] []).saved = false →
      (fetchFromBackend c3wProxy (strBytes "h") (strBytes "/p") c3Req
        defaultResponse [] []).cache = []) ∧
    ((fetchFromBackend c3wProxy (strBytes "h") (strBytes "/p") c3Req
        defaultResponse [] []).saved = true →
      (fetchFromBackend c3wProxy (strBytes "h") (strBytes "/p") c3Req
        defaultResponse [] []).cache =
        saveBackendResponse (strBytes "h") (strBytes "/p") c3wResp [] []) :=
  fetch_admission c3wProxy (strBytes "h") (strBytes "/p") c3Req
    defaultResponse [] [] c3wBackend c3wResp c3wResp false rfl rfl rfl rfl rfl

/-! ## Claim C4 -/

/-- C4 (confirmed): a backend reply whose mutated headers contain a
`Location` header is passed through — nothing is stored in the cache and the
no-cache rules are never evaluated against the response, and no error is
reported. -/
theorem fetch_redirectPassthrough (p : Proxy) (cacheKey path : Bytes)
    (req : Request) (ctxResp : HttpResponse) (entry : Entry) (cache : Cache)
    (f : Fetcher) (resp resp2 : HttpResponse)
    (hsel : (getBackend p).1.backends[(getBackend p).2]? = some f)
    (hdo : f (mkBackendReq req path) = .ok resp)
    (hph : processHeaderRules p.headersRules (mkBackendReq req path) resp = .ok resp2)
    (hloc : peekHeader resp2.headers headerLocation ≠ []) :
    (fetchFromBackend p cacheKey path req ctxResp entry cache).saved = false ∧
    (fetchFromBackend p cacheKey path req ctxResp entry cache).cache = cache ∧
    (fetchFromBackend p cacheKey path req ctxResp entry cache).evalOnResponse = false ∧
    (fetchFromBackend p cacheKey path req ctxResp entry cache).err = none := by
  unfold fetchFromBackend
  simp only [hsel]
  simp [hdo, hph, hloc]

/-- A redirecting backend used by the claim C4 witness. -/
def c4Backend : Fetcher :=
  fun _ => .ok ⟨301, [], [⟨strBytes "Location", strBytes "http://x"⟩]⟩

/-- The proxy of the claim C4 witness, with a rule that would fire on the
response if it were evaluated. -/
def c4Proxy : Proxy := ⟨[c4Backend], 1, 0, [⟨fun _ => .ok true⟩], []⟩

/-- The backend reply of the claim C4 witness. -/
def c4Resp : HttpResponse := ⟨301, [], [⟨strBytes "Location", strBytes "http://x"⟩]⟩

/-- The request of the claim C4 witness. -/
def c4Req : Request := ⟨strBytes "GET", strBytes "h", strBytes "/p", []⟩

/-- The backend client is invoked in every branch of `fetchFromBackend` once
a backend exists at the selected index. -/
theorem fetch_backendCalled (p : Proxy) (cacheKey path : Bytes) (req : Request)
    (ctxResp : HttpResponse) (entry : Entry) (cache : Cache)
    (hsel : ∃ f, (getBackend p).1.backends[(getBackend p).2]? = some f) :
    (fetchFromBackend p cacheKey path req ctxResp entry cache).backendCalled = true := by
  obtain ⟨f, hf⟩ := hsel
  unfold fetchFromBackend
  simp only [hf]
  cases f (mkBackendReq req path) with
  | error e => rfl
  | ok resp =>
    dsimp only
    cases processHeaderRules p.headersRules (mkBackendReq req path) resp with
    | error e => rfl
    | ok resp2 =>
      dsimp only
      split
      · cases checkIfNoCache (mkBackendReq req path) resp2 p.nocacheRules with
        | error e => rfl
        | ok noCache =>
          dsimp only
          split <;> rfl
      · rfl

/-- C4 witness: a concrete 301 redirect is passed through. -/
theorem fetch_redirectPassthrough_witness :
    (fetchFromBackend c4Proxy (strBytes "h") (strBytes "/p") c4Req
      defaultResponse [] []).saved = false ∧
    (fetchFromBackend c4Proxy (strBytes "h") (strBytes "/p") c4Req
      defaultResponse [] []).cache = [] ∧
    (fetchFromBackend c4Proxy (strBytes "h") (strBytes "/p") c4Req
      defaultResponse [] []).evalOnResponse = false ∧
    (fetchFromBackend c4Proxy (strBytes "h") (strBytes "/p") c4Req
      defaultResponse [] []).err = none :=
  fetch_redirectPassthrough c4Proxy (strBytes "h") (strBytes "/p") c4Req
    defaultResponse [] [] c4Backend c4Resp c4Resp rfl rfl rfl (by decide)

/-! ## Claim C6 -/

/-- C6 (confirmed): with no no-cache rule fired and a successful cache read,
the handler serves from the cache (skipping the backend) exactly when the
decoded entry contains a response whose path byte-equals the request's
original path; if it does not, the request is forwarded to the backend. -/
theorem handler_cacheRouting (p : Proxy) (req : Request) (cache : Cache)
    (entry : Entry)
    (hnc : checkIfNoCache req defaultResponse p.nocacheRules = .ok false)
    (hget : GetBytes cache req.host = .ok entry)
    (hsel : ∃ f, (getBackend p).1.backends[(getBackend p).2]? = some f) :
    ((handler p req cache).servedFromCache = true ↔
      (GetResponse entry req.path).isSome = true) ∧
    ((handler p req cache).servedFromCache = true →
      (handler p req cache).backendCalled = false) ∧
    ((handler p req cache).servedFromCache = false →
      (handler p req cache).backendCalled = true) := by
  unfold handler
  simp only [hnc]
  rw [if_neg (by simp)]
  rw [hget]
  dsimp only
  cases hr : GetResponse entry req.path with
  | some r =>
    refine ⟨by simp, fun _ => rfl, fun hx => Bool.noConfusion hx⟩
  | none =>
    refine ⟨?_, ?_, fun _ => ?_⟩
    · rw [respondFetch_served]
      simp
    · rw [respondFetch_served]
      intro hx
      exact Bool.noConfusion hx
    · rw [respondFetch_backendCalled]
      exact fetch_backendCalled p req.host req.path req defaultResponse entry cache hsel

/-- The backend of the claim C6 witness. -/
def c6Backend : Fetcher := fun _ => .ok ⟨200, strBytes "B", []⟩

/-- The proxy of the claim C6 witness. -/
def c6Proxy : Proxy := ⟨[c6Backend], 1, 0, [], []⟩

/-- The request of the claim C6 witness. -/
def c6Req : Request := ⟨strBytes "GET", strBytes "h", strBytes "/a", []⟩

/-- The cached entry of the claim C6 witness: it holds a response for a
different path, so the request must fall through to the backend. -/
def c6Entry : Entry := [⟨strBytes "/b", strBytes "x", []⟩]

/-- The cache of the claim C6 witness. -/
def c6Cache : Cache := SetBytes [] (strBytes "h") c6Entry

/-- C6 witness: the entry for the host exists but holds no response for the
requested path, so the handler forwards to the backend. -/
theorem handler_cacheRouting_witness :
    ((handler c6Proxy c6Req c6Cache).servedFromCache = true ↔
      (GetResponse c6Entry c6Req.path).isSome = true) ∧
    ((handler c6Proxy c6Req c6Cache).servedFromCache = true →
      (handler c6Proxy c6Req c6Cache).backendCalled = false) ∧
    ((handler c6Proxy c6Req c6Cache).servedFromCache = false →
      (handler c6Proxy c6Req c6Cache).backendCalled = true) :=
  handler_cacheRouting c6Proxy c6Req c6Cache c6Entry rfl rfl ⟨c6Backend, rfl⟩

/-! ## Claim C10 -/

/-- C10 (confirmed): a cached response stores no status code, and the
cache-hit branch of the handler copies only body and headers, leaving the
status at the default 200 — so every cache hit is served with status 200;
this is consistent because `fetchFromBackend` admits a reply to the cache
only when the outbound status is exactly 200. -/
theorem cacheHit_status200 :
    (∀ (p : Proxy) (req : Request) (cache : Cache),
      (handler p req cache).servedFromCache = true →
      (handler p req cache).response.statusCode = 200) ∧
    (∀ (p : Proxy) (cacheKey path : Bytes) (req : Request)
      (ctxResp : HttpResponse) (entry : Entry) (cache : Cache),
      (fetchFromBackend p cacheKey path req ctxResp entry cache).saved = true →
      (fetchFromBackend p cacheKey path req ctxResp entry cache).response.statusCode = 200) := by
  constructor
  · intro p req cache
    unfold handler
    dsimp only
    cases checkIfNoCache req defaultResponse p.nocacheRules with
    | error e =>
      rw [respondFetch_served]
      exact fun hx => Bool.noConfusion hx
    | ok noCache =>
      dsimp only
      split
      · rw [respondFetch_served]
        exact fun hx => Bool.noConfusion hx
      · cases GetBytes cache req.host with
        | error e =>
          dsimp only
          rw [respondFetch_served]
          exact fun hx => Bool.noConfusion hx
        | ok entry =>
          dsimp only
          cases GetResponse entry req.path with
          | some r => exact fun _ => rfl
          | none =>
            rw [respondFetch_served]
            exact fun hx => Bool.noConfusion hx
  · intro p cacheKey path req ctxResp entry cache
    unfold fetchFromBackend
    dsimp only
    cases (getBackend p).1.backends[(getBackend p).2]? with
    | none => exact fun hx => Bool.noConfusion hx
    | some f =>
      dsimp only
      cases f (mkBackendReq req path) with
      | error e => exact fun hx => Bool.noConfusion hx
      | ok resp =>
        dsimp only
        cases processHeaderRules p.headersRules (mkBackendReq req path) resp with
        | error e => exact fun hx => Bool.noConfusion hx
        | ok resp2 =>
          dsimp only
          split
          · cases checkIfNoCache (mkBackendReq req path) resp2 p.nocacheRules with
            | error e => exact fun hx => Bool.noConfusion hx
            | ok noCache =>
              dsimp only
              split
              · exact fun hx => Bool.noConfusion hx
              · rename_i hcond
                push_neg at hcond
                exact fun _ => hcond.2
          · exact fun hx => Bool.noConfusion hx

/-- The backend of the claim C10 witness. -/
def c10Backend : Fetcher := fun _ => .ok ⟨200, strBytes "B", []⟩

/-- The proxy of the claim C10 witness. -/
def c10Proxy : Proxy := ⟨[c10Backend], 1, 0, [], []⟩

/-- The request of the claim C10 witness. -/
def c10Req : Request := ⟨strBytes "GET", strBytes "h", strBytes "/a", []⟩

/-- The cache of the claim C10 witness, holding a response for the requested
path. -/
def c10Cache : Cache := SetBytes [] (strBytes "h") [⟨strBytes "/a", strBytes "x", []⟩]

/-- C10 witness: a concrete cache hit is served with status 200. -/
theorem cacheHit_status200_witness :
    (handler c10Proxy c10Req c10Cache).response.statusCode = 200 :=
  cacheHit_status200.1 c10Proxy c10Req c10Cache (by decide)

/-! ## Claim C5 -/

theorem getBackend_one (p : Proxy) (h : p.totalBackends = 1) :
    getBackend p = (p, 0) := by
  unfold getBackend
  rw [if_pos h]

theorem rrStep (n c : Nat) (h2 : 2 ≤ n) (hc : c < n) :
    (if n - 1 ≤ c then 0 else c + 1) = (c + 1) % n := by
  by_cases hb : n - 1 ≤ c
  · have hce : c + 1 = n := by omega
    rw [if_pos hb, hce, Nat.mod_self]
  · rw [if_neg hb, Nat.mod_eq_of_lt (by omega)]

theorem getBackend_multi (p : Proxy) (h2 : 2 ≤ p.totalBackends)
    (hc : p.currentBackend < p.totalBackends) :
    getBackend p =
      ({ p with currentBackend := (p.currentBackend + 1) % p.totalBackends },
        (p.currentBackend + 1) % p.totalBackends) := by
  unfold getBackend
  rw [if_neg (by omega)]
  dsimp only
  rw [rrStep p.totalBackends p.currentBackend h2 hc]

theorem backendSeq_eq (k : Nat) (p : Proxy) (h2 : 2 ≤ p.totalBackends)
    (hc : p.currentBackend < p.totalBackends) :
    backendSeq p k =
      (List.range k).map (fun j => (p.currentBackend + j + 1) % p.totalBackends) := by
  induction k generalizing p with
  | zero => simp [backendSeq]
  | succ k ih =>
    unfold backendSeq
    rw [getBackend_multi p h2 hc]
    dsimp only
    rw [ih { p with currentBackend := (p.currentBackend + 1) % p.totalBackends }
      h2 (Nat.mod_lt _ (by omega))]
    rw [List.range_succ_eq_map, List.map_cons, List.map_map]
    simp only [List.cons.injEq]
    refine ⟨by simp, ?_⟩
    apply List.map_congr_left
    intro j _
    show ((p.currentBackend + 1) % p.totalBackends + j + 1) % p.totalBackends =
      (p.currentBackend + (j + 1) + 1) % p.totalBackends
    rw [Nat.add_assoc ((p.currentBackend + 1) % p.totalBackends) j 1,
      Nat.mod_add_mod]
    congr 1
    omega

/-- C5 (confirmed): `getBackend` returns index 0 on every call (leaving the
state unchanged) when exactly one backend is configured; with two or more
backends, from any reachable cursor (one below the backend count) the next
`totalBackends` consecutive calls select every backend index exactly once —
the sequence has full length, no duplicates, and contains exactly the indices
below the backend count. -/
theorem getBackend_roundRobin (p : Proxy) :
    (p.totalBackends = 1 → ∀ k, backendSeq p k = List.replicate k 0) ∧
    (2 ≤ p.totalBackends → p.currentBackend < p.totalBackends →
      (backendSeq p p.totalBackends).length = p.totalBackends ∧
      (backendSeq p p.totalBackends).Nodup ∧
      (∀ i, i ∈ backendSeq p p.totalBackends ↔ i < p.totalBackends)) := by
  constructor
  · intro h1 k
    induction k with
    | zero => rfl
    | succ k ih =>
      unfold backendSeq
      rw [getBackend_one p h1]
      dsimp only
      rw [ih, List.replicate_succ]
  · intro h2 hc
    rw [backendSeq_eq p.totalBackends p h2 hc]
    have npos : 0 < p.totalBackends := by omega
    refine ⟨by simp, ?_, ?_⟩
    · refine List.Nodup.map_on ?_ (List.nodup_range _)
      intro j1 hj1 j2 hj2 hf
      rw [List.mem_range] at hj1 hj2
      have hm : Nat.ModEq p.totalBackends (p.currentBackend + 1 + j1)
          (p.currentBackend + 1 + j2) := by
        unfold Nat.ModEq
        calc (p.currentBackend + 1 + j1) % p.totalBackends
            = (p.currentBackend + j1 + 1) % p.totalBackends := by congr 1; omega
          _ = (p.currentBackend + j2 + 1) % p.totalBackends := hf
          _ = (p.currentBackend + 1 + j2) % p.totalBackends := by congr 1; omega
      have := Nat.ModEq.add_left_cancel' (p.currentBackend + 1) hm
      unfold Nat.ModEq at this
      rw [Nat.mod_eq_of_lt hj1, Nat.mod_eq_of_lt hj2] at this
      exact this
    · intro i
      constructor
      · intro hmem
        obtain ⟨j, _, rfl⟩ := List.mem_map.1 hmem
        exact Nat.mod_lt _ npos
      · intro hi
        apply List.mem_map.2
        have hd : (p.currentBackend + 1) % p.totalBackends < p.totalBackends :=
          Nat.mod_lt _ npos
        refine ⟨(i + p.totalBackends - (p.currentBackend + 1) % p.totalBackends)
          % p.totalBackends, List.mem_range.2 (Nat.mod_lt _ npos), ?_⟩
        calc (p.currentBackend +
              (i + p.totalBackends - (p.currentBackend + 1) % p.totalBackends)
                % p.totalBackends + 1) % p.totalBackends
            = (p.currentBackend + 1 +
              (i + p.totalBackends - (p.currentBackend + 1) % p.totalBackends)
                % p.totalBackends) % p.totalBackends := by congr 1; omega
          _ = ((p.currentBackend + 1) % p.totalBackends +
              (i + p.totalBackends - (p.currentBackend + 1) % p.totalBackends)
                % p.totalBackends) % p.totalBackends := by
                rw [Nat.mod_add_mod]
          _ = ((p.currentBackend + 1) % p.totalBackends +
              (i + p.totalBackends - (p.currentBackend + 1) % p.totalBackends))
                % p.totalBackends := by rw [Nat.add_mod_mod]
          _ = (i + p.totalBackends) % p.totalBackends := by
                congr 1
                omega
          _ = i % p.totalBackends := Nat.add_mod_right i p.totalBackends
          _ = i := Nat.mod_eq_of_lt hi

/-- A dummy backend of the claim C5 witness. -/
def c5Backend : Fetcher := fun _ => .ok defaultResponse

/-- A proxy with three configured backends for the claim C5 witness. -/
def c5Proxy : Proxy := ⟨[c5Backend, c5Backend, c5Backend], 3, 0, [], []⟩

/-- C5 witness: with three backends, three consecutive calls select three
distinct indices. -/
theorem getBackend_roundRobin_witness :
    (backendSeq c5Proxy 3).length = 3 ∧ (backendSeq c5Proxy 3).Nodup :=
  ⟨((getBackend_roundRobin c5Proxy).2 (by decide) (by decide)).1,
    ((getBackend_roundRobin c5Proxy).2 (by decide) (by decide)).2.1⟩

/-! ## Claim C9 -/

/-- A byte field small enough for an 8-byte length prefix, holding bytes. -/
abbrev bytesOk (b : Bytes) : Prop := b.length < 256 ^ 8 ∧ ∀ x ∈ b, x < 256

/-- Well-formedness of one header. -/
abbrev headerOk (h : HttpHeader) : Prop := bytesOk h.key ∧ bytesOk h.value

/-- Well-formedness of one cached response. -/
abbrev responseOk (r : CacheResponse) : Prop :=
  bytesOk r.Path ∧ bytesOk r.Body ∧ r.Headers.length < 256 ^ 8 ∧
    ∀ h ∈ r.Headers, headerOk h

/-- Well-formedness of an entry: every count and field length fits the
8-byte length prefix and every byte is a byte. -/
abbrev entryOk (e : Entry) : Prop := e.length < 256 ^ 8 ∧ ∀ r ∈ e, responseOk r

theorem length_natToBytesBE (w n : Nat) : (natToBytesBE w n).length = w := by
  induction w generalizing n with
  | zero => rfl
  | succ w ih => simp [natToBytesBE, ih]

theorem foldl_natToBytesBE (w n a : Nat) :
    (natToBytesBE w n).foldl (fun x b => x * 256 + b) a =
      a * 256 ^ w + n % 256 ^ w := by
  induction w generalizing n a with
  | zero => simp [natToBytesBE, Nat.mod_one]
  | succ w ih =>
    simp only [natToBytesBE, List.foldl_append, List.foldl_cons, List.foldl_nil]
    rw [ih]
    have key : n % 256 ^ (w + 1) = n % 256 + 256 * (n / 256 % 256 ^ w) := by
      rw [pow_succ, mul_comm, Nat.mod_mul]
    rw [key]
    ring

theorem bytesToNatBE_natToBytesBE (w n : Nat) (h : n < 256 ^ w) :
    bytesToNatBE (natToBytesBE w n) = n := by
  unfold bytesToNatBE
  rw [foldl_natToBytesBE]
  simp [Nat.mod_eq_of_lt h]

theorem readLenPrefix_append (n : Nat) (rest : List Nat) (h : n < 256 ^ 8) :
    readLenPrefix (encLen n ++ rest) = some (n, rest) := by
  unfold readLenPrefix encLen
  have hlen : (natToBytesBE 8 n).length = 8 := length_natToBytesBE 8 n
  rw [if_pos (by simp [hlen])]
  rw [List.take_left' hlen, List.drop_left' hlen]
  rw [bytesToNatBE_natToBytesBE 8 n h]

theorem readBytes_append (b rest : List Nat) :
    readBytes b.length (b ++ rest) = some (b, rest) := by
  unfold readBytes
  rw [if_pos (by simp)]
  rw [List.take_left, List.drop_left]

theorem decodeHeader_enc (h : HttpHeader) (rest : List Nat)
    (hk : h.key.length < 256 ^ 8) (hv : h.value.length < 256 ^ 8) :
    decodeHeader (encHeader h ++ rest) = some (h, rest) := by
  unfold decodeHeader
  simp only [encHeader, encBytes, List.append_assoc]
  rw [readLenPrefix_append _ _ hk]
  dsimp only
  rw [readBytes_append]
  dsimp only
  rw [readLenPrefix_append _ _ hv]
  dsimp only
  rw [readBytes_append]

theorem decodeHeaders_enc (hs : List HttpHeader) (rest : List Nat)
    (hok : ∀ h ∈ hs, headerOk h) :
    decodeHeaders hs.length ((hs.map encHeader).flatten ++ rest) =
      some (hs, rest) := by
  induction hs with
  | nil => rfl
  | cons h t ih =>
    simp only [List.map_cons, List.flatten_cons, List.length_cons,
      List.append_assoc]
    unfold decodeHeaders
    rw [decodeHeader_enc h _ (hok h (by simp)).1.1 (hok h (by simp)).2.1]
    dsimp only
    rw [ih (fun x hx => hok x (by simp [hx]))]

theorem decodeResponse_enc (r : CacheResponse) (rest : List Nat)
    (hok : responseOk r) :
    decodeResponse (encResponse r ++ rest) = some (r, rest) := by
  unfold decodeResponse
  simp only [encResponse, encBytes, List.append_assoc]
  rw [readLenPrefix_append _ _ hok.1.1]
  dsimp only
  rw [readBytes_append]
  dsimp only
  rw [readLenPrefix_append _ _ hok.2.1.1]
  dsimp only
  rw [readBytes_append]
  dsimp only
  rw [readLenPrefix_append _ _ hok.2.2.1]
  dsimp only
  rw [decodeHeaders_enc r.Headers rest hok.2.2.2]

theorem decodeResponses_enc (rs : Entry) (rest : List Nat)
    (hok : ∀ r ∈ rs, responseOk r) :
    decodeResponses rs.length ((rs.map encResponse).flatten ++ rest) =
      some (rs, rest) := by
  induction rs with
  | nil => rfl
  | cons r t ih =>
    simp only [List.map_cons, List.flatten_cons, List.length_cons,
      List.append_assoc]
    unfold decodeResponses
    rw [decodeResponse_enc r _ (hok r (by simp))]
    dsimp only
    rw [ih (fun x hx => hok x (by simp [hx]))]

theorem decode_encode (e : Entry) (he : entryOk e) : decode (encode e) = some e := by
  unfold encode
  rw [decode.eq_def]
  simp only [List.cons_append, if_true]
  have hflat : encLen e.length ++ (e.map encResponse).flatten =
      encLen e.length ++ ((e.map encResponse).flatten ++ []) := by simp
  rw [hflat, readLenPrefix_append _ _ he.1]
  dsimp only
  rw [decodeResponses_enc e [] he.2]
  rfl

theorem cacheGet_cacheSet (c : Cache) (k v : Bytes) :
    cacheGet (cacheSet c k v) k = some v := by
  induction c with
  | nil => simp [cacheSet, cacheGet]
  | cons kv rest ih =>
    obtain ⟨k0, v0⟩ := kv
    by_cases h : k0 = k
    · simp [cacheSet, cacheGet, h]
    · simp [cacheSet, cacheGet, h, ih]

/-- C9 (confirmed): decoding the encoding of any well-formed entry yields the
entry back, and after `SetBytes` under a host key a subsequent `GetBytes`
under the same key reproduces every response with byte-identical path, body
and headers. -/
theorem codec_roundTrip (e : Entry) (host : Bytes) (cache : Cache)
    (he : entryOk e) :
    decode (encode e) = some e ∧
    GetBytes (SetBytes cache host e) host = .ok e := by
  have hd : decode (encode e) = some e := decode_encode e he
  refine ⟨hd, ?_⟩
  unfold GetBytes SetBytes
  rw [cacheGet_cacheSet]
  dsimp only
  rw [hd]

/-- The concrete entry of the claim C9 witness. -/
def c9Entry : Entry :=
  [⟨strBytes "/a", strBytes "hello", [⟨strBytes "X-A", strBytes "1"⟩]⟩,
   ⟨strBytes "/b", [], []⟩]

/-- C9 witness: the round trip at a concrete two-response entry. -/
theorem codec_roundTrip_witness :
    decode (encode c9Entry) = some c9Entry ∧
    GetBytes (SetBytes [] (strBytes "h") c9Entry) (strBytes "h") = .ok c9Entry :=
  codec_roundTrip c9Entry (strBytes "h") [] (by decide)

/-! ## Claim C1 -/

/-- The full text of a request-header token with the given header name. -/
def tokenOf (H : List Char) : List Char := "$(req.header::".toList ++ (H ++ [')'])

/-- A rule comparing the same keyed token against itself. -/
def dupRule (H : List Char) : List Char :=
  tokenOf H ++ (" == ".toList ++ tokenOf H)

theorem splitAtClose_append (inner rest : List Char) (h : ')' ∉ inner) :
    splitAtClose (inner ++ ')' :: rest) = some (inner, rest) := by
  induction inner with
  | nil => simp [splitAtClose]
  | cons c cs ih =>
    have hc : c ≠ ')' := fun hx => h (by simp [hx])
    simp only [List.cons_append, splitAtClose, List.append_eq]
    rw [if_neg hc, ih (fun hx => h (by simp [hx]))]

theorem findFirstToken_token (inner rest : List Char) (h : ')' ∉ inner) :
    findFirstToken ('$' :: '(' :: (inner ++ ')' :: rest)) =
      some ('$' :: '(' :: (inner ++ [')'])) := by
  simp only [findFirstToken, if_true]
  rw [splitAtClose_append inner rest h]

theorem splitNameSub_reqHeader (H : List Char) :
    splitNameSub ("req.header::".toList ++ H) = ("req.header".toList, H) := by
  rfl

theorem replaceAllFuel_congr (f : Nat) :
    ∀ (g : Nat) (s pat rep : List Char), s.length ≤ f → s.length ≤ g →
      replaceAllFuel f s pat rep = replaceAllFuel g s pat rep := by
  induction f with
  | zero =>
    intro g s pat rep hf _
    have hs : s = [] := List.eq_nil_of_length_eq_zero (Nat.le_zero.1 hf)
    subst hs
    cases g <;> rfl
  | succ f ih =>
    intro g s pat rep hf hg
    cases s with
    | nil => cases g <;> rfl
    | cons c cs =>
      cases g with
      | zero => simp at hg
      | succ g =>
        simp only [replaceAllFuel]
        by_cases hp : pat ≠ [] ∧ pat.isPrefixOf (c :: cs)
        · rw [if_pos hp, if_pos hp]
          congr 1
          have hplen : 0 < pat.length := List.length_pos.2 hp.1
          apply ih
          · simp only [List.length_drop, List.length_cons]
            simp only [List.length_cons] at hf
            omega
          · simp only [List.length_drop, List.length_cons]
            simp only [List.length_cons] at hg
            omega
        · rw [if_neg hp, if_neg hp]
          congr 1
          apply ih
          · simp only [List.length_cons] at hf
            omega
          · simp only [List.length_cons] at hg
            omega

theorem replaceAll_nil (pat rep : List Char) : replaceAll [] pat rep = [] := rfl

theorem replaceAll_cons_pos (c : Char) (cs pat rep : List Char)
    (h : pat ≠ [] ∧ pat.isPrefixOf (c :: cs)) :
    replaceAll (c :: cs) pat rep =
      rep ++ replaceAll ((c :: cs).drop pat.length) pat rep := by
  have hplen : 0 < pat.length := List.length_pos.2 h.1
  show replaceAllFuel (c :: cs).length (c :: cs) pat rep = _
  rw [List.length_cons]
  simp only [replaceAllFuel]
  rw [if_pos h]
  congr 1
  exact replaceAllFuel_congr cs.length ((c :: cs).drop pat.length).length
    ((c :: cs).drop pat.length) pat rep
    (by simp only [List.length_drop, List.length_cons]; omega) (Nat.le_refl _)

theorem replaceAll_cons_neg (c : Char) (cs pat rep : List Char)
    (h : ¬(pat ≠ [] ∧ pat.isPrefixOf (c :: cs))) :
    replaceAll (c :: cs) pat rep = c :: replaceAll cs pat rep := by
  show replaceAllFuel (c :: cs).length (c :: cs) pat rep = _
  rw [List.length_cons]
  simp only [replaceAllFuel]
  rw [if_neg h]
  rfl

theorem isPrefixOf_self_append (l r : List Char) : l.isPrefixOf (l ++ r) = true := by
  induction l with
  | nil => cases r <;> rfl
  | cons c cs ih => simp [List.isPrefixOf, ih]

theorem replaceAll_front (pat rest rep : List Char) (hne : pat ≠ []) :
    replaceAll (pat ++ rest) pat rep = rep ++ replaceAll rest pat rep := by
  obtain ⟨p, ps, hp⟩ : ∃ p ps, pat = p :: ps := by
    cases pat with
    | nil => exact absurd rfl hne
    | cons p ps => exact ⟨p, ps, rfl⟩
  have hpre : pat.isPrefixOf (pat ++ rest) = true := isPrefixOf_self_append pat rest
  have hshape : pat ++ rest = p :: (ps ++ rest) := by rw [hp]; rfl
  rw [hshape] at hpre ⊢
  rw [replaceAll_cons_pos p (ps ++ rest) pat rep ⟨hne, hpre⟩]
  congr 1
  rw [← hshape, List.drop_left]

theorem replaceAll_skip (m rest pat rep : List Char) (p : Char) (ps : List Char)
    (hpat : pat = p :: ps) (hm : ∀ c ∈ m, c ≠ p) :
    replaceAll (m ++ rest) pat rep = m ++ replaceAll rest pat rep := by
  induction m with
  | nil => simp
  | cons c cs ih =>
    rw [List.cons_append]
    rw [replaceAll_cons_neg c (cs ++ rest) pat rep ?hneg]
    · rw [ih (fun x hx => hm x (by simp [hx]))]
      rfl
    case hneg =>
      intro hcontra
      have hpre := hcontra.2
      rw [hpat] at hpre
      have hpre2 : (p == c && ps.isPrefixOf (cs ++ rest)) = true := hpre
      have hpc : p = c := by
        simp only [Bool.and_eq_true] at hpre2
        exact eq_of_beq hpre2.1
      exact hm c (by simp) hpc.symm

theorem replaceAll_self (pat rep : List Char) (hne : pat ≠ []) :
    replaceAll pat pat rep = rep := by
  have h := replaceAll_front pat [] rep hne
  rw [List.append_nil] at h
  rw [h, replaceAll_nil, List.append_nil]

theorem tokenOf_cons (H : List Char) :
    tokenOf H = '$' :: ("(req.header::".toList ++ (H ++ [')'])) := rfl

theorem tokenOf_ne_nil (H : List Char) : tokenOf H ≠ [] := by
  rw [tokenOf_cons]
  exact List.cons_ne_nil _ _

theorem findFirstToken_dupRule (H : List Char) (hcl : ')' ∉ H) :
    findFirstToken (dupRule H) = some (tokenOf H) := by
  have hnotin : ')' ∉ "req.header::".toList ++ H := by
    intro hx
    rcases List.mem_append.1 hx with h1 | h1
    · simp at h1
    · exact hcl h1
  have hshape : dupRule H =
      '$' :: '(' :: (("req.header::".toList ++ H) ++
        ')' :: (" == ".toList ++ tokenOf H)) := by
    simp [dupRule, tokenOf, List.append_assoc]
  rw [hshape, findFirstToken_token _ _ hnotin]
  rfl

theorem replaceAll_dupRule (H rep : List Char) :
    replaceAll (dupRule H) (tokenOf H) rep =
      rep ++ (" == ".toList ++ rep) := by
  have hne := tokenOf_ne_nil H
  rw [show dupRule H = tokenOf H ++ (" == ".toList ++ tokenOf H) from rfl]
  rw [replaceAll_front _ _ _ hne]
  rw [replaceAll_skip (" == ".toList) (tokenOf H) (tokenOf H) rep '$'
    ("(req.header::".toList ++ (H ++ [')'])) (tokenOf_cons H) (by decide)]
  rw [replaceAll_self _ _ hne]

theorem parseConfigKeys_dupRule (H : List Char) (hne : H ≠ []) (hcl : ')' ∉ H) :
    parseConfigKeys (dupRule H) 0 =
      (tokenOf H, "V_reqHeader0".toList, H, 1) := by
  have hHempty : H.isEmpty = false := by
    cases H with
    | nil => exact absurd rfl hne
    | cons a as => rfl
  unfold parseConfigKeys
  rw [findFirstToken_dupRule H hcl]
  dsimp only
  have hdrop : (tokenOf H).drop 2 = ("req.header::".toList ++ H) ++ [')'] := by
    rw [tokenOf_cons]
    simp [List.append_assoc]
  rw [hdrop, List.dropLast_concat, splitNameSub_reqHeader]
  dsimp only
  rw [if_neg (by simp [scalarVar])]
  rw [if_pos (by rfl)]
  rw [if_neg (by simp [hHempty])]
  rfl

theorem newEvalLoop_of_none (f : Nat) (rule : List Char)
    (params : List RuleParam) (ctr : Nat) (h : findFirstToken rule = none) :
    newEvalLoop f rule params ctr = .ok (rule, params) := by
  cases f with
  | zero => rfl
  | succ f =>
    unfold newEvalLoop
    rw [h]

/-- C1 (amended): compiling a rule that references the same keyed token
twice replaces both occurrences with one and the same fresh identifier and
emits a single `ruleParam` descriptor — duplicates are collapsed, not kept
(the loop substitutes every occurrence of the matched token text at once and
records one parameter per iteration). -/
theorem newEvaluableExpression_dupToken (H : List Char) (hne : H ≠ [])
    (hcl : ')' ∉ H) :
    newEvaluableExpression (dupRule H) =
      .ok ("V_reqHeader0 == V_reqHeader0".toList,
        [⟨"V_reqHeader0".toList, H⟩]) := by
  obtain ⟨f, hf⟩ : ∃ f, (dupRule H).length = f + 1 := by
    refine ⟨(dupRule H).length - 1, ?_⟩
    have hpos : 0 < (dupRule H).length := by
      rw [show dupRule H = tokenOf H ++ (" == ".toList ++ tokenOf H) from rfl,
        tokenOf_cons]
      simp
    omega
  unfold newEvaluableExpression
  rw [hf]
  unfold newEvalLoop
  rw [findFirstToken_dupRule H hcl]
  dsimp only
  rw [parseConfigKeys_dupRule H hne hcl]
  dsimp only
  rw [if_neg ?hcond]
  case hcond =>
    intro hx
    have := hx.1
    rw [tokenOf_cons] at this
    exact Bool.noConfusion this
  rw [replaceAll_dupRule H "V_reqHeader0".toList]
  rw [newEvalLoop_of_none f _ _ _ (by rfl)]
  rfl

/-- C1 counterexample: the rule comparing `$(req.header::X-Data)` with
itself compiles to a single shared identifier and exactly one `ruleParam`
descriptor — not the two distinct bindings the claim states. -/
theorem newEvaluableExpression_dup_counterexample :
    newEvaluableExpression
        ("$(req.header::X-Data) == $(req.header::X-Data)".toList) =
      .ok ("V_reqHeader0 == V_reqHeader0".toList,
        [⟨"V_reqHeader0".toList, "X-Data".toList⟩]) ∧
    ([⟨"V_reqHeader0".toList, "X-Data".toList⟩] : List RuleParam).length ≠ 2 := by
  exact ⟨rfl, by decide⟩

/-- C1 witness: the amended statement at the header name `X-Data`. -/
theorem newEvaluableExpression_dupToken_witness :
    newEvaluableExpression (dupRule ("X-Data".toList)) =
      .ok ("V_reqHeader0 == V_reqHeader0".toList,
        [⟨"V_reqHeader0".toList, "X-Data".toList⟩]) :=
  newEvaluableExpression_dupToken ("X-Data".toList) (by decide) (by decide)

end Kratgo
